import Mathlib

/-!
# Verification of the i8086.js x86 assembler core

Shallow embedding of the assembler core of the `i8086.js` repository:
operand matchers, ModR/M synthesis, binary instruction encoding and the
two-pass layout engine, together with proofs about the behaviour that the
natural-language specification describes.

Addresses and numeric operand values are modelled as `Int` (JavaScript
numbers used as integers), byte counts as `Nat`, and the compiler mode as
`Rat` (the `bits n` handler stores `n / 8`, which in JavaScript is exact
rational division for the inputs of interest).
-/

namespace I8086

/-! ## Number byte-size helpers

The helpers below live in `@compiler/core/utils/numberByteSize` and
`X86AbstractCPU`, which are not part of the source snapshot; they are
modelled from the specification (§4.4 step 5, §4.3 `ib_s`, §9 integer
widths) and from how the snapshot's callers use them. -/

/-- Number of binary digits, fuel-driven so that the kernel can reduce
it on literals (`fuel ≥ n` suffices). -/
def bitLengthAux : Nat → Nat → Nat
  | _, 0 => 0
  | 0, _ + 1 => 0
  | fuel + 1, n + 1 => bitLengthAux fuel ((n + 1) / 2) + 1

/-- Number of binary digits of a natural number (`0` for `0`). -/
def bitLength (n : Nat) : Nat :=
  bitLengthAux n n

/-- Ceiling of the base-two logarithm, fuel-driven (`fuel ≥ n`
suffices). -/
def clog2Aux : Nat → Nat → Nat
  | _, 0 => 0
  | _, 1 => 0
  | 0, _ + 2 => 0
  | fuel + 1, n + 2 => clog2Aux fuel ((n + 2 + 1) / 2) + 1

/-- Ceiling of the base-two logarithm. -/
def clog2 (n : Nat) : Nat :=
  clog2Aux n n

/-- Modelled from the spec: `roundToPowerOfTwo` (imported by
`ASTParser.ts` and `part_003` from `utils/numberByteSize`, which is not in
the snapshot) rounds a byte count up to the nearest power of two. -/
def roundToPowerOfTwo (n : Nat) : Nat :=
  if n ≤ 1 then n else 2 ^ clog2 n

/-- Modelled from the spec: `numberByteSize` — the smallest number of
bytes that holds the magnitude of the value (§4.2 "byte size …
inferred from magnitude"), at least one byte. -/
def numberByteSize (n : Int) : Nat :=
  max 1 ((bitLength n.natAbs + 7) / 8)

/-- Modelled from the spec: `signedNumberByteSize` — the smallest number
of bytes `k` such that the value lies in the signed range
`[-2^(8k-1), 2^(8k-1) - 1]` (§4.4 step 5, "signed_disp_byte_size from the
signed form"). -/
def signedNumberByteSize (n : Int) : Nat :=
  if 0 ≤ n then bitLength n.toNat / 8 + 1
  else bitLength (n.natAbs - 1) / 8 + 1

/-- Modelled from the spec: `roundedSignedNumberByteSize` — the signed
byte size rounded up to a power of two, as used by the relative-label
matcher. -/
def roundedSignedNumberByteSize (n : Int) : Nat :=
  roundToPowerOfTwo (signedNumberByteSize n)

/-- Modelled from the spec: `X86AbstractCPU.toUnsignedNumber` — the value
taken as a `bytes`-byte unsigned integer (§4.3: "taken as a
`targetBits`-bit unsigned integer"). -/
def toUnsignedNumber (n : Int) (bytes : Nat) : Nat :=
  (n % (2 ^ (8 * bytes) : Int)).toNat

/-- Modelled from the spec: `X86AbstractCPU.signExtend` — sign-extension
of the low `srcBytes` bytes of the value to `dstBytes` bytes.  §9 gives
the bit formula `value | (-((value >> (m−1)) & 1) << m)` masked to `n`
bits and §4.3 states that `ib_s` extends the operand's *low* byte; when
the target width does not exceed the source width there is nothing to
extend and the value is returned unchanged. -/
def signExtend (num : Nat) (srcBytes dstBytes : Nat) : Nat :=
  if dstBytes ≤ srcBytes then num
  else
    let low := num % 2 ^ (8 * srcBytes)
    if 2 ^ (8 * srcBytes - 1) ≤ low then
      low + (2 ^ (8 * dstBytes) - 2 ^ (8 * srcBytes))
    else low

/-- `extractNthByte` of `parser/compiler/utils/extractNthByte.ts`:
`(num >> (nth * 8)) & 0xFF`; on `Int` the JavaScript arithmetic shift is
floor division. -/
def extractNthByte (nth : Nat) (num : Int) : Nat :=
  ((Int.fdiv num (2 ^ (8 * nth))) % 256).toNat

/-! ### Facts about the size helpers -/

theorem bitLengthAux_le_iff (fuel : Nat) :
    ∀ n k, n ≤ fuel → (bitLengthAux fuel n ≤ k ↔ n < 2 ^ k) := by
  induction fuel with
  | zero =>
    intro n k h
    have hn : n = 0 := by omega
    subst hn
    simp only [bitLengthAux]
    simp [Nat.pos_pow_of_pos _ (show 0 < 2 by norm_num)]
  | succ fuel ih =>
    intro n k h
    match n with
    | 0 =>
      simp only [bitLengthAux]
      simp [Nat.pos_pow_of_pos _ (show 0 < 2 by norm_num)]
    | n + 1 =>
      have hrec : (n + 1) / 2 ≤ fuel := by omega
      match k with
      | 0 =>
        simp only [bitLengthAux, pow_zero]
        omega
      | j + 1 =>
        have h1 := ih ((n + 1) / 2) j hrec
        simp only [bitLengthAux]
        rw [show (2 : Nat) ^ (j + 1) = 2 ^ j * 2 from by ring]
        constructor
        · intro hle
          have := h1.mp (by omega)
          omega
        · intro hlt
          have := h1.mpr (by omega)
          omega

theorem bitLength_le_iff {n k : Nat} : bitLength n ≤ k ↔ n < 2 ^ k :=
  bitLengthAux_le_iff n n k le_rfl

theorem clog2Aux_eq (fuel : Nat) :
    ∀ n, n ≤ fuel → clog2Aux fuel n = Nat.clog 2 n := by
  induction fuel with
  | zero =>
    intro n h
    have hn : n = 0 := by omega
    subst hn
    simp [clog2Aux, Nat.clog_of_right_le_one]
  | succ fuel ih =>
    intro n h
    match n with
    | 0 => simp [clog2Aux, Nat.clog_of_right_le_one]
    | 1 => simp [clog2Aux, Nat.clog_of_right_le_one]
    | n + 2 =>
      rw [show clog2Aux (fuel + 1) (n + 2) = clog2Aux fuel ((n + 2 + 1) / 2) + 1 from rfl]
      rw [Nat.clog_of_two_le (by norm_num) (by omega)]
      rw [ih ((n + 2 + 1) / 2) (by omega)]
      congr 2

theorem clog2_eq (n : Nat) : clog2 n = Nat.clog 2 n :=
  clog2Aux_eq n n le_rfl

theorem signedNumberByteSize_eq_one_iff {n : Int} :
    signedNumberByteSize n = 1 ↔ -128 ≤ n ∧ n ≤ 127 := by
  unfold signedNumberByteSize
  split
  · rename_i h0
    have : bitLength n.toNat / 8 + 1 = 1 ↔ bitLength n.toNat ≤ 7 := by omega
    rw [this, bitLength_le_iff]
    constructor
    · intro h; exact ⟨by omega, by omega⟩
    · intro h; omega
  · rename_i h0
    have hneg : n < 0 := by omega
    have : bitLength (n.natAbs - 1) / 8 + 1 = 1 ↔ bitLength (n.natAbs - 1) ≤ 7 := by
      omega
    rw [this, bitLength_le_iff]
    constructor
    · intro h
      constructor
      · omega
      · omega
    · intro h; omega

theorem signedNumberByteSize_pos (n : Int) : 1 ≤ signedNumberByteSize n := by
  unfold signedNumberByteSize
  split <;> omega

theorem roundToPowerOfTwo_eq_one_iff {s : Nat} (hs : 1 ≤ s) :
    roundToPowerOfTwo s = 1 ↔ s = 1 := by
  unfold roundToPowerOfTwo
  simp only [clog2_eq]
  split
  · omega
  · rename_i h
    have h2 : 2 ≤ s := by omega
    have h1 : 0 < Nat.clog 2 s := Nat.clog_pos (by norm_num) h2
    have : 2 ≤ 2 ^ Nat.clog 2 s := by
      calc 2 = 2 ^ 1 := by norm_num
      _ ≤ 2 ^ Nat.clog 2 s := Nat.pow_le_pow_right (by norm_num) h1
    omega

theorem roundedSignedNumberByteSize_eq_one_iff {n : Int} :
    roundedSignedNumberByteSize n = 1 ↔ -128 ≤ n ∧ n ≤ 127 := by
  unfold roundedSignedNumberByteSize
  rw [roundToPowerOfTwo_eq_one_iff (signedNumberByteSize_pos n),
    signedNumberByteSize_eq_one_iff]

theorem signedNumberByteSize_le_two_iff {n : Int} :
    signedNumberByteSize n ≤ 2 ↔ -32768 ≤ n ∧ n ≤ 32767 := by
  unfold signedNumberByteSize
  split
  · rename_i h0
    have : bitLength n.toNat / 8 + 1 ≤ 2 ↔ bitLength n.toNat ≤ 15 := by omega
    rw [this, bitLength_le_iff]
    constructor
    · intro h; exact ⟨by omega, by omega⟩
    · intro h; omega
  · rename_i h0
    have : bitLength (n.natAbs - 1) / 8 + 1 ≤ 2 ↔ bitLength (n.natAbs - 1) ≤ 15 := by
      omega
    rw [this, bitLength_le_iff]
    constructor
    · intro h; exact ⟨by omega, by omega⟩
    · intro h; omega

theorem roundToPowerOfTwo_le_two_iff {s : Nat} :
    roundToPowerOfTwo s ≤ 2 ↔ s ≤ 2 := by
  unfold roundToPowerOfTwo
  simp only [clog2_eq]
  split
  · omega
  · rename_i h
    have h2 : 2 ≤ s := by omega
    constructor
    · intro hle
      by_contra hc
      have h3 : 3 ≤ s := by omega
      have h4 : 1 < Nat.clog 2 s := by
        rw [← Nat.pow_lt_iff_lt_clog (by norm_num)]
        omega
      have : 2 ^ 2 ≤ 2 ^ Nat.clog 2 s := Nat.pow_le_pow_right (by norm_num) (by omega)
      omega
    · intro hle
      have hs2 : s = 2 := by omega
      subst hs2
      simp [Nat.clog_eq_one]

theorem roundedSignedNumberByteSize_le_two_iff {n : Int} :
    roundedSignedNumberByteSize n ≤ 2 ↔ -32768 ≤ n ∧ n ≤ 32767 := by
  unfold roundedSignedNumberByteSize
  rw [roundToPowerOfTwo_le_two_iff, signedNumberByteSize_le_two_iff]

/-! ## Registers and instruction prefixes

Translated from `constants/x86.ts` (in the snapshot). -/

/-- `RegisterSchema` of `constants/x86.ts`. -/
structure RegisterSchema where
  mnemonic : String
  index : Nat
  byteSize : Nat
  segment : Bool := false
  x87 : Bool := false
deriving DecidableEq, Repr

/-- `COMPILER_REGISTERS_SET` of `constants/x86.ts` (as the underlying
list; the source reduces it into a name-keyed store). -/
def COMPILER_REGISTERS_SET : List RegisterSchema :=
  [ ⟨"al", 0x0, 0x1, false, false⟩, ⟨"ah", 0x4, 0x1, false, false⟩, ⟨"ax", 0x0, 0x2, false, false⟩,
    ⟨"bl", 0x3, 0x1, false, false⟩, ⟨"bh", 0x7, 0x1, false, false⟩, ⟨"bx", 0x3, 0x2, false, false⟩,
    ⟨"cl", 0x1, 0x1, false, false⟩, ⟨"ch", 0x5, 0x1, false, false⟩, ⟨"cx", 0x1, 0x2, false, false⟩,
    ⟨"dl", 0x2, 0x1, false, false⟩, ⟨"dh", 0x6, 0x1, false, false⟩, ⟨"dx", 0x2, 0x2, false, false⟩,
    ⟨"sp", 0x4, 0x2, false, false⟩,
    ⟨"bp", 0x5, 0x2, false, false⟩,
    ⟨"si", 0x6, 0x2, false, false⟩,
    ⟨"di", 0x7, 0x2, false, false⟩,
    ⟨"es", 0x0, 0x2, true, false⟩,
    ⟨"cs", 0x1, 0x2, true, false⟩,
    ⟨"ss", 0x2, 0x2, true, false⟩,
    ⟨"ds", 0x3, 0x2, true, false⟩,
    ⟨"fs", 0x4, 0x2, true, false⟩,
    ⟨"gs", 0x5, 0x2, true, false⟩,
    ⟨"st0", 0x0, 0xA, false, true⟩,
    ⟨"st1", 0x1, 0xA, false, true⟩,
    ⟨"st2", 0x2, 0xA, false, true⟩,
    ⟨"st3", 0x3, 0xA, false, true⟩,
    ⟨"st4", 0x4, 0xA, false, true⟩,
    ⟨"st5", 0x5, 0xA, false, true⟩,
    ⟨"st6", 0x6, 0xA, false, true⟩,
    ⟨"st7", 0x7, 0xA, false, true⟩ ]

/-- `InstructionArgSize.WORD` (16-bit mode; byte sizes are used as mode
values throughout the source). -/
def InstructionArgSizeWORD : Nat := 2

/-- `MIN_COMPILER_REG_LENGTH = InstructionArgSize.WORD` of
`constants/x86.ts`. -/
def MIN_COMPILER_REG_LENGTH : Nat := InstructionArgSizeWORD

/-- `MAX_COMPILER_REG_LENGTH` of `constants/x86.ts`: the fold
`R.reduce((acc, {byteSize}) => Math.max(acc, byteSize), 0, registers)`. -/
def MAX_COMPILER_REG_LENGTH : Nat :=
  COMPILER_REGISTERS_SET.foldl (fun acc r => max acc r.byteSize) 0

/-- Segment-override prefix bytes of the `InstructionPrefix` enum in
`constants/x86.ts`: `CS = 0x2E`, `SS = 0x36`, `DS = 0x3E`, `ES = 0x26`,
`FS = 0x64`, `GS = 0x65`. -/
def segOverrideByteOf : String → Option Nat
  | "cs" => some 0x2E
  | "ss" => some 0x36
  | "ds" => some 0x3E
  | "es" => some 0x26
  | "fs" => some 0x64
  | "gs" => some 0x65
  | _ => none

/-- Modelled from the spec: `findMatchingSregPrefix` (imported by
`BinaryInstruction.ts` from `parser/compiler/utils`, not in the
snapshot) maps a segment register to its override prefix byte per the
§4.6 table. -/
def findMatchingSregOverride (sreg : RegisterSchema) : Option Nat :=
  segOverrideByteOf sreg.mnemonic

/-! ## Instruction operands and matchers

Operand model after the `ASTInstructionArg` class hierarchy: a tagged
union of register / number / memory / segmented-memory / label operands
(`InstructionArgType`).  A number operand carries `val`, `byteSize` and
`signedByteSize` as in `ASTInstructionNumberArg` (`ASTParser.ts`):
`byteSize = roundToPowerOfTwo (numberByteSize val)` and
`signedByteSize = roundedSignedNumberByteSize val` unless overridden. -/

/-- `BranchAddressingType` of `types.ts`. -/
inductive BranchAddressingType where
  | SHORT
  | NEAR
  | FAR
deriving DecidableEq, Repr

/-- Scale descriptor of `MemAddressDescription` (`scale.reg` ×
`scale.value`). -/
structure MemAddressScale where
  reg : RegisterSchema
  value : Nat
deriving DecidableEq, Repr

/-- `MemAddressDescription` built by `parseMemExpression`: optional
segment override, base register (`reg`), scale descriptor, displacement
with its unsigned and signed byte sizes (`null` until a displacement is
parsed). -/
structure MemAddressDescription where
  sreg : Option RegisterSchema := none
  reg : Option RegisterSchema := none
  scale : Option MemAddressScale := none
  disp : Option Int := none
  dispByteSize : Option Nat := none
  signedByteSize : Option Nat := none
deriving DecidableEq, Repr

/-- Instruction operand (`ASTInstructionArg` subclasses). -/
inductive ASTInstructionArg where
  | register (val : RegisterSchema)
  | number (val : Int) (byteSize : Nat) (signedByteSize : Nat)
  | memory (desc : MemAddressDescription) (byteSize : Nat)
  | segmented (segment : Int) (offset : Int) (byteSize : Nat)
  | label (name : String)
deriving DecidableEq, Repr

/-- The number operand the parser builds for a bare numeric literal
(`new ASTInstructionNumberArg(number, byteSize)` with the defaulted
sizes from `ASTParser.ts`). -/
def numberArg (n : Int) : ASTInstructionArg :=
  .number n (roundToPowerOfTwo (numberByteSize n)) (roundedSignedNumberByteSize n)

/-- `ASTInstructionNumberArg.upperCastByteSize` of `ASTParser.ts`:
the mixed-size rule upcasts a smaller number operand to the other
operand's byte size and recomputes `signedByteSize` as
`roundToPowerOfTwo (numberByteSize (0xFF <<< (byteSize * 8 + 1)))`. -/
def upperCastByteSize (arg : ASTInstructionArg) (byteSize : Nat) : ASTInstructionArg :=
  match arg with
  | .number v bs _ =>
    let bs' := max bs byteSize
    .number v bs' (roundToPowerOfTwo (numberByteSize ((0xFF : Int) * 2 ^ (bs' * 8 + 1))))
  | a => a

/-- `relLabel` of `matchers.ts` (the `rel8`/`rel16` matcher).  The
source receives the whole instruction but reads only its
`branchAddressingType`. -/
def relLabel (branchAddressingType : Option BranchAddressingType)
    (arg : ASTInstructionArg) (signedByteSize : Nat) (absoluteAddress : Int) : Bool :=
  match arg with
  | .label _ => true
  | .number val _ _ =>
    if branchAddressingType ≠ none ∧ branchAddressingType ≠ some .SHORT then false
    else
      let relativeToInstruction := val - absoluteAddress - signedByteSize
      roundedSignedNumberByteSize relativeToInstruction == signedByteSize
  | _ => false

/-- `nearPointer` of `matchers.ts`.  `absoluteAddress` is `none` on the
first pass; JavaScript coerces the `null` address to `0` in the
subtraction, which the `none` branch mirrors. -/
def nearPointer (branchAddressingType : Option BranchAddressingType)
    (arg : ASTInstructionArg) (maxByteSize : Nat) (absoluteAddress : Option Int) : Bool :=
  match arg with
  | .label _ => true
  | .number val byteSize _ =>
    if branchAddressingType ≠ none ∧ branchAddressingType ≠ some .NEAR then false
    else if absoluteAddress = none ∧ byteSize ≤ maxByteSize then true
    else
      let relativeToSegment := val - absoluteAddress.getD 0 - maxByteSize
      roundedSignedNumberByteSize relativeToSegment ≤ maxByteSize
  | _ => false

/-- `immCanBeImplicitSignExtendedToByte` of `matchers.ts` (the `ib_s`
matcher behind the `0x83` opcode forms). -/
def immCanBeImplicitSignExtendedToByte (arg : ASTInstructionArg)
    (srcByteSize minTargetByteSize : Nat) : Bool :=
  match arg with
  | .number val byteSize signedByteSize =>
    let targetSize := max byteSize minTargetByteSize
    let originalValue := toUnsignedNumber val targetSize
    let extended := signExtend originalValue srcByteSize signedByteSize
    toUnsignedNumber (extended : Int) targetSize == originalValue
  | _ => false

/-- `imm` of `matchers.ts` (the `ib`/`iw`/`id` matcher); the operands of
interest here carry no explicit size cast, so the implicit-size branch
(`byteSize <= maxByteSize`) applies. -/
def imm (arg : ASTInstructionArg) (maxByteSize : Nat) : Bool :=
  match arg with
  | .label _ => true
  | .number _ byteSize _ => byteSize ≤ maxByteSize
  | _ => false

/-! ## Schema choice for jump and `sub` immediates

The schema registry (`instructionSetSchema.ts`) is not part of the
snapshot.  Modelled from the spec: §4.1 — candidates are tried in
registry order, smaller encodings before larger ones of the same
semantics, and the first matching schema is chosen. -/

/-- The two direct-`jmp` encodings: `EB rel8` (short) and `E9 rel16`
(near). -/
inductive JmpEncoding where
  | short
  | near
deriving DecidableEq, Repr

/-- Modelled from the spec: schema choice for a direct `jmp` operand in
the second pass (real absolute address available).  The short `rel8`
form (matched by `relLabel` with signed size `1`) precedes the near
16-bit-relative form (matched by `nearPointer` with max size `2`);
`findMatchingInstructionSchemas` keeps candidates in registry order and
the compiler uses the first one. -/
def chooseJmpEncoding (branchAddressingType : Option BranchAddressingType)
    (arg : ASTInstructionArg) (absoluteAddress : Int) : Option JmpEncoding :=
  if relLabel branchAddressingType arg 1 absoluteAddress then some .short
  else if nearPointer branchAddressingType arg 2 (some absoluteAddress) then some .near
  else none

/-- The two word-size `sub r/m16, imm` immediate encodings: the
sign-extended `0x83 /5` form and the full `0x81 /5` form. -/
inductive SubImmEncoding where
  | sx83
  | full81
deriving DecidableEq, Repr

/-- Modelled from the spec: schema choice for the immediate operand of a
word-size `sub`, in registry order (§4.1): the `ib_s`-matched `0x83`
form precedes the `iw`-matched `0x81` form. -/
def chooseSubImmEncoding (arg : ASTInstructionArg) : Option SubImmEncoding :=
  if immCanBeImplicitSignExtendedToByte arg 1 2 then some .sx83
  else if imm arg 2 then some .full81
  else none

/-! ### Facts about `toUnsignedNumber` and `signExtend` -/

theorem toUnsignedNumber_lt (n : Int) (b : Nat) :
    toUnsignedNumber n b < 2 ^ (8 * b) := by
  unfold toUnsignedNumber
  have hM : ((2 ^ (8 * b) : Nat) : Int) = (2 : Int) ^ (8 * b) := by push_cast; ring
  have h : (0 : Int) < 2 ^ (8 * b) := by positivity
  have h1 := Int.emod_lt_of_pos n h
  have h2 := Int.emod_nonneg n (ne_of_gt h)
  omega

theorem toUnsignedNumber_natCast (m b : Nat) :
    toUnsignedNumber (m : Int) b = m % 2 ^ (8 * b) := by
  unfold toUnsignedNumber
  rw [show ((2 : Int) ^ (8 * b)) = ((2 ^ (8 * b) : Nat) : Int) from by push_cast; ring]
  norm_cast

theorem lt_two_pow_bitLength (n : Nat) : n < 2 ^ bitLength n :=
  bitLength_le_iff.mp le_rfl

theorem bitLength_le_succ_of_pred {m : Nat} (hm : 1 ≤ m) :
    bitLength m ≤ bitLength (m - 1) + 1 := by
  rw [bitLength_le_iff]
  have h1 := lt_two_pow_bitLength (m - 1)
  have h2 : 2 ^ (bitLength (m - 1) + 1) = 2 ^ bitLength (m - 1) * 2 := by ring
  omega

theorem numberByteSize_le_signedNumberByteSize (n : Int) :
    numberByteSize n ≤ signedNumberByteSize n := by
  unfold numberByteSize signedNumberByteSize
  split
  · rename_i h0
    have habs : n.natAbs = n.toNat := by omega
    rw [habs]
    omega
  · rename_i h0
    have hm : 1 ≤ n.natAbs := by omega
    have := bitLength_le_succ_of_pred hm
    omega

theorem roundToPowerOfTwo_pos {s : Nat} (hs : 1 ≤ s) :
    1 ≤ roundToPowerOfTwo s := by
  unfold roundToPowerOfTwo
  simp only [clog2_eq]
  split
  · omega
  · exact Nat.pos_pow_of_pos _ (by norm_num)

theorem roundToPowerOfTwo_mono {s s' : Nat} (h : s ≤ s') :
    roundToPowerOfTwo s ≤ roundToPowerOfTwo s' := by
  unfold roundToPowerOfTwo
  simp only [clog2_eq]
  split
  · split
    · omega
    · rename_i h1 h2
      have : 1 ≤ Nat.clog 2 s' := Nat.clog_pos (by norm_num) (by omega)
      calc s ≤ 2 ^ 1 := by omega
      _ ≤ 2 ^ Nat.clog 2 s' := Nat.pow_le_pow_right (by norm_num) this
  · split
    · omega
    · exact Nat.pow_le_pow_right (by norm_num) (Nat.clog_mono_right 2 h)

/-- Reading the result of a wider sign extension at a narrower width
agrees with the narrower sign extension. -/
theorem signExtend_mod {u s t : Nat} (ht : 1 ≤ t) (hts : t ≤ s)
    (hu : u < 2 ^ (8 * t)) :
    signExtend u 1 s % 2 ^ (8 * t) = signExtend u 1 t := by
  unfold signExtend
  by_cases hs1 : s ≤ 1
  · have hts1 : t ≤ 1 := le_trans hts hs1
    have ht1' : t = 1 := by omega
    subst ht1'
    simp only [hs1, if_pos, le_refl]
    have : (2 : Nat) ^ (8 * 1) = 256 := by norm_num
    omega
  · simp only [if_neg hs1]
    have h256 : (2 : Nat) ^ (8 * 1) = 256 := by norm_num
    have hMge : 256 ≤ 2 ^ (8 * t) := by
      calc (256 : Nat) = 2 ^ (8 * 1) := by norm_num
      _ ≤ 2 ^ (8 * t) := Nat.pow_le_pow_right (by norm_num) (by omega)
    have hdvd : 2 ^ (8 * t) ∣ 2 ^ (8 * s) := pow_dvd_pow 2 (by omega)
    obtain ⟨c, hc⟩ := hdvd
    have hc1 : 1 ≤ c := by
      by_contra hcon
      have hc0 : c = 0 := by omega
      rw [hc0, Nat.mul_zero] at hc
      have : (0 : Nat) < 2 ^ (8 * s) := Nat.pos_pow_of_pos _ (by norm_num)
      omega
    have hEsum : 2 ^ (8 * s) = 2 ^ (8 * t) * (c - 1) + 2 ^ (8 * t) := by
      rw [hc, ← Nat.mul_succ]
      congr 1
      omega
    by_cases htt : t ≤ 1
    · -- t = 1 : the target width is the single source byte
      have ht1' : t = 1 := by omega
      subst ht1'
      simp only [le_refl, if_pos]
      rw [h256] at hu hEsum
      split
      · rw [show u % 2 ^ (8 * 1) + (2 ^ (8 * s) - 2 ^ (8 * 1)) =
            u % 2 ^ (8 * 1) + 256 * (c - 1) from by rw [h256]; omega]
        rw [h256, Nat.add_mul_mod_self_left]
        omega
      · rw [h256]
        omega
    · simp only [if_neg htt]
      have hlowlt : u % 2 ^ (8 * 1) < 256 := by rw [h256]; exact Nat.mod_lt _ (by norm_num)
      split
      · -- negative case: high filler bytes beyond the target width vanish
        rw [show u % 2 ^ (8 * 1) + (2 ^ (8 * s) - 2 ^ (8 * 1)) =
            (u % 2 ^ (8 * 1) + (2 ^ (8 * t) - 2 ^ (8 * 1))) + 2 ^ (8 * t) * (c - 1)
          from by rw [h256] at *; omega]
        rw [Nat.add_mul_mod_self_left]
        exact Nat.mod_eq_of_lt (by rw [h256] at *; omega)
      · exact Nat.mod_eq_of_lt (by omega)

/-! ## ModR/M synthesis and instruction encoding

Translated from `findMatchingMemAddressingRMByte` (`part_003`) and the
`BinaryInstruction` class of
`src/assembler/parser/compiler/types/BinaryInstruction.ts`. -/

/-- Error codes of `ParserError` (`shared/ParserError.ts`), restricted
to the codes reachable from the embedded core; `UNKNOWN_KEYWORD` is the
`MathErrorCode` thrown by the RPN evaluator, merged into one error type
here. -/
inductive ParserErrorCode where
  | INVALID_ADDRESSING_MODE
  | SCALE_INDEX_IS_UNSUPPORTED_IN_MODE
  | UNSUPPORTED_COMPILER_MODE
  | DISPLACEMENT_EXCEEDING_BYTE_SIZE
  | INCORRECT_SREG_OVERRIDE
  | MISSING_RM_BYTE_DEF
  | MISSING_MEM_ARG_DEF
  | ORIGIN_REDEFINED
  | LABEL_ALREADY_DEFINED
  | UNPERMITTED_NODE_IN_POSTPROCESS_MODE
  | UNABLE_TO_COMPILE_FILE
  | UNKNOWN_COMPILER_INSTRUCTION
  | UNKNOWN_KEYWORD
deriving DecidableEq, Repr

instance {ε α : Type} [DecidableEq ε] [DecidableEq α] : DecidableEq (Except ε α) :=
  fun a b =>
    match a, b with
    | .ok x, .ok y =>
      if h : x = y then isTrue (by rw [h]) else isFalse (by intro he; cases he; exact h rfl)
    | .error x, .error y =>
      if h : x = y then isTrue (by rw [h]) else isFalse (by intro he; cases he; exact h rfl)
    | .ok _, .error _ => isFalse (by intro he; cases he)
    | .error _, .ok _ => isFalse (by intro he; cases he)

/-- `RMAddressingMode.INDIRECT_ADDRESSING` (`mod = 0b00`). -/
def INDIRECT_ADDRESSING : Nat := 0b00

/-- `RMAddressingMode.REG_ADDRESSING` (`mod = 0b11`). -/
def REG_ADDRESSING : Nat := 0b11

/-- The ModR/M byte (`RMByte` of the emulator types, not in the
snapshot); modelled from the spec glossary: `(mod:2 | reg:3 | rm:3)`. -/
structure RMByte where
  mod : Nat
  reg : Nat
  rm : Nat
deriving DecidableEq, Repr

/-- Byte value of a ModR/M byte: `mod` in bits 7–6, `reg` in bits 5–3,
`rm` in bits 2–0. -/
def RMByte.byte (r : RMByte) : Nat :=
  r.mod * 64 + r.reg * 8 + r.rm

/-- Modelled from the spec: `RMByte.getDisplacementByteSize` — the
displacement width implied by the `mod` field (`01` → 1 byte, `10` →
2 bytes, otherwise none; §4.5: `d` atoms are skipped when the `mod`
says "no displacement"). -/
def RMByte.getDisplacementByteSize (r : RMByte) : Option Nat :=
  if r.mod = 1 then some 1 else if r.mod = 2 then some 2 else none

/-- One probe of the 16-bit addressing table in
`findMatchingMemAddressingRMByte` (`part_003`, lines 49–83): the `if`
chains for `MOD = 00`, the pure-displacement form, and `MOD = 01 / MOD
= 10`.  The source's `swapped` retry is unfolded into the two-probe
`findMatchingMemAddressingRMByte` below. -/
def findMemRMPass (mode : Rat) (baseReg scaleReg : Option String)
    (dispRoundedSize : Option Nat) : Option (Nat × Nat) :=
  if mode = (InstructionArgSizeWORD : Rat) then
    match dispRoundedSize with
    | none =>
      if baseReg = some "bx" ∧ scaleReg = some "si" then some (INDIRECT_ADDRESSING, 0b000)
      else if baseReg = some "bx" ∧ scaleReg = some "di" then some (INDIRECT_ADDRESSING, 0b001)
      else if baseReg = some "bp" ∧ scaleReg = some "si" then some (INDIRECT_ADDRESSING, 0b010)
      else if baseReg = some "bp" ∧ scaleReg = some "di" then some (INDIRECT_ADDRESSING, 0b011)
      else if scaleReg = none ∧ baseReg = some "si" then some (INDIRECT_ADDRESSING, 0b100)
      else if scaleReg = none ∧ baseReg = some "di" then some (INDIRECT_ADDRESSING, 0b101)
      else if scaleReg = none ∧ baseReg = some "bx" then some (INDIRECT_ADDRESSING, 0b111)
      else none
    | some d =>
      if baseReg = none ∧ scaleReg = none ∧ d ≤ InstructionArgSizeWORD then
        some (INDIRECT_ADDRESSING, 0b110)
      else if d = 0x1 ∨ d = 0x2 then
        if baseReg = some "bx" ∧ scaleReg = some "si" then some (d, 0b000)
        else if baseReg = some "bx" ∧ scaleReg = some "di" then some (d, 0b001)
        else if baseReg = some "bp" ∧ scaleReg = some "si" then some (d, 0b010)
        else if baseReg = some "bp" ∧ scaleReg = some "di" then some (d, 0b011)
        else if scaleReg = none ∧ baseReg = some "si" then some (d, 0b100)
        else if scaleReg = none ∧ baseReg = some "di" then some (d, 0b101)
        else if scaleReg = none ∧ baseReg = some "bp" then some (d, 0b110)
        else if scaleReg = none ∧ baseReg = some "bx" then some (d, 0b111)
        else none
      else none
  else none

/-- `findMatchingMemAddressingRMByte` (`part_003`): probe the 16-bit
table, and if nothing matched retry once with base and index swapped
(`mov ax, [si + bx]`); the source implements the retry through its
`swapped` flag and a single self-call. -/
def findMatchingMemAddressingRMByte (mode : Rat) (baseReg scaleReg : Option String)
    (dispRoundedSize : Option Nat) : Option (Nat × Nat) :=
  match findMemRMPass mode baseReg scaleReg dispRoundedSize with
  | some r => some r
  | none => findMemRMPass mode scaleReg baseReg dispRoundedSize

/-- The operand that lands in the ModR/M `mod`/`rm` fields: memory or
register (`BinaryInstruction.encodeRMByte`'s `rmArg`). -/
inductive RMArg where
  | memory (desc : MemAddressDescription)
  | register (val : RegisterSchema)
deriving DecidableEq, Repr

/-- `BinaryInstruction.encodeRMByte` of `BinaryInstruction.ts` (lines
246–291): memory operands go through the 16-bit table with the
power-of-two-rounded *signed* displacement size; register operands use
`mod = REG_ADDRESSING` and the register index; the `reg` field carries
the other register operand's index when present. -/
def encodeRMByte (mode : Rat) (regArg : Option RegisterSchema) (rmArg : RMArg) :
    Except ParserErrorCode RMByte :=
  match rmArg with
  | .memory addressDescription =>
    let signedDispByteSize : Option Nat :=
      match addressDescription.disp with
      | none => none
      | some _ => some (roundToPowerOfTwo (addressDescription.signedByteSize.getD 0))
    match findMatchingMemAddressingRMByte mode
        (addressDescription.reg.map (fun r => r.mnemonic))
        (addressDescription.scale.map (fun s => s.reg.mnemonic))
        signedDispByteSize with
    | none => .error .INVALID_ADDRESSING_MODE
    | some (mod, rm) =>
      .ok { mod := mod, reg := (regArg.map (fun r => r.index)).getD 0, rm := rm }
  | .register r =>
    .ok { mod := REG_ADDRESSING, reg := (regArg.map (fun q => q.index)).getD 0, rm := r.index }

/-- Atoms of a schema's `binarySchema` (§4.5): literal bytes and the
`i`/`d`/`r`/`o`/`s`/`mr`/`/n` atoms. -/
inductive SchemaAtom where
  | lit (b : Nat)
  | imm (n : Nat)
  | disp (n : Nat)
  | rel (n : Nat)
  | off (n : Nat)
  | seg (n : Nat)
  | mr
  | slash (k : Nat)
deriving DecidableEq, Repr

/-- The memory operand as `BinaryInstruction.compile` reads it:
its parsed `addressDescription` plus the matched argument schema's `rm`
and `moffset` flags and the operand byte size. -/
structure MemArgModel where
  addressDescription : Option MemAddressDescription := none
  schemaRm : Bool := false
  schemaMoffset : Bool := false
  byteSize : Nat := 0
deriving DecidableEq, Repr

/-- The immediate operand (`ast.numArgs[0]`): value and byte size. -/
structure ImmArgModel where
  val : Int
  byteSize : Nat
deriving DecidableEq, Repr

/-- The segmented-memory operand (`ast.segMemArgs[0].val`): the parsed
`segment` and `offset` numbers. -/
structure SegMemModel where
  segment : Int
  offset : Int
deriving DecidableEq, Repr

/-- An instruction as `BinaryInstruction.compile` consumes it: the
matched primary schema's template and byte size, the operand accessors
(`ast.memArgs[0]`, `ast.findRMArg()`, `ast.numArgs[0]`,
`ast.segMemArgs[0]`, the non-rm register argument), the raw instruction
prefixes, `ast.getScale()` presence, and the second-pass flags.  The
schema registry and operand matching are collaborators outside the
snapshot (`instructionSetSchema.ts`); an instruction node carries their
result. -/
structure InstrModel where
  prefixes : List Nat := []
  binarySchema : List SchemaAtom := []
  schemaByteSize : Nat := 0
  memArg : Option MemArgModel := none
  rmArg : Option RMArg := none
  immArg : Option ImmArgModel := none
  segMemArg : Option SegMemModel := none
  regArg : Option RegisterSchema := none
  hasScale : Bool := false
  labeledInstruction : Bool := false
  unresolvedArgs : Bool := false
deriving DecidableEq, Repr

/-- The `binarySchema.forEach` loop of `BinaryInstruction.compile`
(lines 111–225): walk the template atoms, emitting bytes and threading
the (mutable in the source) ModR/M byte.  A `d` atom with a `moffs`-like
`rmByte = none` uses `none` as the source's `Infinity` default. -/
def emitSchemaAtoms (inst : InstrModel) (absoluteAddress : Int) (binaryOutputSize : Nat) :
    List SchemaAtom → Option RMByte → List Nat → Except ParserErrorCode (List Nat)
  | [], _, binary => .ok binary
  | .seg n :: rest, rmByte, binary =>
    let b := match inst.segMemArg with
      | some s => extractNthByte n s.segment
      | none => 0
    emitSchemaAtoms inst absoluteAddress binaryOutputSize rest rmByte (binary ++ [b])
  | .off n :: rest, rmByte, binary =>
    let b := match inst.segMemArg with
      | some s => extractNthByte n s.offset
      | none => 0
    emitSchemaAtoms inst absoluteAddress binaryOutputSize rest rmByte (binary ++ [b])
  | .rel n :: rest, rmByte, binary =>
    let b := match inst.immArg with
      | some immArg =>
        toUnsignedNumber
          (extractNthByte n (immArg.val - absoluteAddress - binaryOutputSize) : Int)
          immArg.byteSize
      | none => 0
    emitSchemaAtoms inst absoluteAddress binaryOutputSize rest rmByte (binary ++ [b])
  | .imm n :: rest, rmByte, binary =>
    let b := match inst.immArg with
      | some immArg => extractNthByte n immArg.val
      | none => 0
    emitSchemaAtoms inst absoluteAddress binaryOutputSize rest rmByte (binary ++ [b])
  | .disp n :: rest, rmByte, binary =>
    match inst.memArg with
    | none =>
      if rmByte.isSome then
        emitSchemaAtoms inst absoluteAddress binaryOutputSize rest rmByte binary
      else .error .MISSING_MEM_ARG_DEF
    | some memArg =>
      match memArg.addressDescription with
      | some ad =>
        match ad.disp with
        | some disp =>
          let rmMaxByteSize : Option Nat :=
            match rmByte with
            | some r => r.getDisplacementByteSize
            | none => none
          let emitIt : Bool :=
            !memArg.schemaRm ||
              (match rmMaxByteSize with
               | none => true
               | some m => decide (n < max m (ad.dispByteSize.getD 0)))
          if emitIt then
            emitSchemaAtoms inst absoluteAddress binaryOutputSize rest rmByte
              (binary ++ [extractNthByte n disp])
          else
            emitSchemaAtoms inst absoluteAddress binaryOutputSize rest rmByte binary
        | none => emitSchemaAtoms inst absoluteAddress binaryOutputSize rest rmByte binary
      | none => emitSchemaAtoms inst absoluteAddress binaryOutputSize rest rmByte binary
  | .mr :: rest, rmByte, binary =>
    match rmByte with
    | none => .error .MISSING_RM_BYTE_DEF
    | some r =>
      emitSchemaAtoms inst absoluteAddress binaryOutputSize rest (some r) (binary ++ [r.byte])
  | .slash k :: rest, rmByte, binary =>
    match rmByte with
    | none =>
      let r : RMByte := ⟨REG_ADDRESSING, k, 0⟩
      emitSchemaAtoms inst absoluteAddress binaryOutputSize rest (some r) (binary ++ [r.byte])
    | some r =>
      let r2 : RMByte := { r with reg := k }
      emitSchemaAtoms inst absoluteAddress binaryOutputSize rest (some r2) (binary ++ [r2.byte])
  | .lit b :: rest, rmByte, binary =>
    emitSchemaAtoms inst absoluteAddress binaryOutputSize rest rmByte (binary ++ [b])

/-- `BinaryInstruction.compile` of `BinaryInstruction.ts` (lines
52–229): encode the ModR/M byte, apply the scaled-index mode check, the
displacement-size check, collect prefixes (instruction prefixes, then
the segment-override prefix when the memory operand names a segment
register), walk the template, and prepend the prefixes. -/
def BinaryInstruction_compile (mode : Rat) (inst : InstrModel) (absoluteAddress : Int) :
    Except ParserErrorCode (List Nat) :=
  match (match inst.rmArg with
         | none => Except.ok none
         | some rmArg =>
           match encodeRMByte mode inst.regArg rmArg with
           | .error e => .error e
           | .ok r => .ok (some r) : Except ParserErrorCode (Option RMByte)) with
  | .error e => .error e
  | .ok rmByte =>
    -- the source comments that SIB is only supported above 16-bit mode,
    -- yet throws when the mode exceeds 16 bits
    if inst.hasScale = true ∧ (InstructionArgSizeWORD : Rat) < mode then
      .error .SCALE_INDEX_IS_UNSUPPORTED_IN_MODE
    else
      match (match inst.memArg with
             | none => Except.ok inst.prefixes
             | some memArg =>
               match memArg.addressDescription with
               | none => Except.ok inst.prefixes
               | some ad =>
                 if ¬ memArg.schemaMoffset = true ∧ mode < ((ad.dispByteSize.getD 0 : Nat) : Rat) then
                   .error .DISPLACEMENT_EXCEEDING_BYTE_SIZE
                 else
                   match ad.sreg with
                   | none => Except.ok inst.prefixes
                   | some sreg =>
                     match findMatchingSregOverride sreg with
                     | none => .error .INCORRECT_SREG_OVERRIDE
                     | some sregOverride => .ok (inst.prefixes ++ [sregOverride])
             : Except ParserErrorCode (List Nat)) with
      | .error e => .error e
      | .ok binaryPrefixes =>
        match emitSchemaAtoms inst absoluteAddress
            (inst.schemaByteSize + inst.prefixes.length + (if inst.hasScale then 1 else 0))
            inst.binarySchema rmByte [] with
        | .error e => .error e
        | .ok binary => .ok (binaryPrefixes ++ binary)

/-- The register descriptor a mnemonic names in
`COMPILER_REGISTERS_SET`. -/
def regOf (name : String) : RegisterSchema :=
  (COMPILER_REGISTERS_SET.find? (fun r => r.mnemonic = name)).getD
    ⟨name, 0, 0, false, false⟩

/-! ## Claim theorems: operand matchers (C1, C5) -/

/-- **C1.** For a jump operand that is a resolved number in the second
pass (no branch-addressing override present), the `rel8` matcher
accepts the operand exactly when the signed offset from the end of the
instruction — the code's `relativeToInstruction = val − absoluteAddress
− signedByteSize` — fits in one signed byte; consequently a target
exactly 127 bytes past that point picks the short (`rel8`) encoding and
a target 128 bytes past it picks the near (`rel16`-field) encoding. -/
theorem rel8_accepts_iff_offset_fits_byte :
    (∀ (val addr : Int) (bs sbs : Nat),
        relLabel none (.number val bs sbs) 1 addr = true ↔
          -128 ≤ val - addr - 1 ∧ val - addr - 1 ≤ 127) ∧
    (∀ addr : Int,
        chooseJmpEncoding none (numberArg (addr + 1 + 127)) addr = some .short) ∧
    (∀ addr : Int,
        chooseJmpEncoding none (numberArg (addr + 1 + 128)) addr = some .near) := by
  refine ⟨?_, ?_, ?_⟩
  · intro val addr bs sbs
    simp [relLabel, roundedSignedNumberByteSize_eq_one_iff]
  · intro addr
    have h : relLabel none (numberArg (addr + 1 + 127)) 1 addr = true := by
      simp [numberArg, relLabel, roundedSignedNumberByteSize_eq_one_iff]
      omega
    simp [chooseJmpEncoding, h]
  · intro addr
    have h1 : relLabel none (numberArg (addr + 1 + 128)) 1 addr = false := by
      simp [numberArg, relLabel, roundedSignedNumberByteSize_eq_one_iff]
      omega
    have h2 : nearPointer none (numberArg (addr + 1 + 128)) 2 (some addr) = true := by
      simp [numberArg, nearPointer, roundedSignedNumberByteSize_le_two_iff]
      omega
    simp [chooseJmpEncoding, h1, h2]

/-- **C5.** The `ib_s` matcher on a parser-produced number operand
(source width 1 byte, minimum target width 2 bytes as in the `0x83`
word forms) accepts exactly when the operand's value, taken as a
target-width unsigned integer, equals the sign extension of its low
byte to that width; and the immediate of `sub di, 1` (the literal `1`
upcast to `di`'s two bytes by the mixed-size rule) picks the
sign-extended `0x83` form rather than the full `0x81` form. -/
theorem ib_s_accepts_iff_signExtend_low_byte :
    (∀ n : Int,
        immCanBeImplicitSignExtendedToByte (numberArg n) 1 2 = true ↔
          toUnsignedNumber n (max (roundToPowerOfTwo (numberByteSize n)) 2) =
            signExtend
              (toUnsignedNumber n (max (roundToPowerOfTwo (numberByteSize n)) 2)) 1
              (max (roundToPowerOfTwo (numberByteSize n)) 2)) ∧
    chooseSubImmEncoding (upperCastByteSize (numberArg 1) 2) = some .sx83 := by
  constructor
  · intro n
    have ht2 : 2 ≤ max (roundToPowerOfTwo (numberByteSize n)) 2 := le_max_right _ _
    have hult := toUnsignedNumber_lt n (max (roundToPowerOfTwo (numberByteSize n)) 2)
    simp only [immCanBeImplicitSignExtendedToByte, numberArg, toUnsignedNumber_natCast,
      beq_iff_eq]
    by_cases hs1 : roundedSignedNumberByteSize n = 1
    · rw [hs1]
      have hse1 : signExtend (toUnsignedNumber n (max (roundToPowerOfTwo (numberByteSize n)) 2)) 1 1 =
          toUnsignedNumber n (max (roundToPowerOfTwo (numberByteSize n)) 2) := by
        unfold signExtend
        simp
      rw [hse1, Nat.mod_eq_of_lt hult]
      have hrange : -128 ≤ n ∧ n ≤ 127 := roundedSignedNumberByteSize_eq_one_iff.mp hs1
      have hnb : numberByteSize n = 1 := by
        unfold numberByteSize
        have : bitLength n.natAbs ≤ 8 := by
          rw [bitLength_le_iff]
          omega
        omega
      rw [hnb] at hult ⊢
      have hround1 : roundToPowerOfTwo 1 = 1 := by norm_num [roundToPowerOfTwo]
      rw [hround1] at hult ⊢
      have hmax : max 1 2 = 2 := by norm_num
      rw [hmax] at hult ⊢
      -- now everything is concrete width 2; compute the unsigned value
      have huval : ((toUnsignedNumber n 2 : Nat) : Int) = n % 65536 := by
        unfold toUnsignedNumber
        rw [show ((2 : Int) ^ (8 * 2)) = 65536 from by norm_num]
        exact Int.toNat_of_nonneg (Int.emod_nonneg n (by norm_num))
      simp only [true_iff]
      unfold signExtend
      norm_num
      split
      · omega
      · omega
    · have hs2 : 2 ≤ roundedSignedNumberByteSize n := by
        have h1 : 1 ≤ roundedSignedNumberByteSize n :=
          roundToPowerOfTwo_pos (signedNumberByteSize_pos n)
        omega
      have hbs_le : roundToPowerOfTwo (numberByteSize n) ≤ roundedSignedNumberByteSize n :=
        roundToPowerOfTwo_mono (numberByteSize_le_signedNumberByteSize n)
      have hts : max (roundToPowerOfTwo (numberByteSize n)) 2 ≤
          roundedSignedNumberByteSize n := max_le hbs_le hs2
      rw [signExtend_mod (by omega) hts hult]
      exact eq_comm
  · decide

/-! ## Claim theorems: 16-bit ModR/M synthesis (C4, C6) -/

/-- The 16-bit addressing table as §4.4 of the specification states it —
a second definition following the spec's words, to be compared with the
source's `findMatchingMemAddressingRMByte`.  Columns are the
displacement byte size (`none`, one byte, two bytes); the bare-`bp` row
has no displacement-free entry; the pure-displacement row maps any
present displacement of at most two bytes to `mod=00 rm=6` ("00/6 with
2-byte disp (pure [disp16])"). -/
def specMemAddressing16Table (base index : Option String) (dispSize : Option Nat) :
    Option (Nat × Nat) :=
  match base, index, dispSize with
  | some "bx", some "si", none => some (0b00, 0)
  | some "bx", some "si", some 1 => some (0b01, 0)
  | some "bx", some "si", some 2 => some (0b10, 0)
  | some "bx", some "di", none => some (0b00, 1)
  | some "bx", some "di", some 1 => some (0b01, 1)
  | some "bx", some "di", some 2 => some (0b10, 1)
  | some "bp", some "si", none => some (0b00, 2)
  | some "bp", some "si", some 1 => some (0b01, 2)
  | some "bp", some "si", some 2 => some (0b10, 2)
  | some "bp", some "di", none => some (0b00, 3)
  | some "bp", some "di", some 1 => some (0b01, 3)
  | some "bp", some "di", some 2 => some (0b10, 3)
  | some "si", none, none => some (0b00, 4)
  | some "si", none, some 1 => some (0b01, 4)
  | some "si", none, some 2 => some (0b10, 4)
  | some "di", none, none => some (0b00, 5)
  | some "di", none, some 1 => some (0b01, 5)
  | some "di", none, some 2 => some (0b10, 5)
  | some "bp", none, some 1 => some (0b01, 6)
  | some "bp", none, some 2 => some (0b10, 6)
  | some "bx", none, none => some (0b00, 7)
  | some "bx", none, some 1 => some (0b01, 7)
  | some "bx", none, some 2 => some (0b10, 7)
  | none, none, some d => if d ≤ 2 then some (0b00, 6) else none
  | _, _, _ => none

/-- The base/index arguments `encodeRMByte` can pass to the table: a
known register mnemonic or nothing. -/
def reg16TableOptions : List (Option String) :=
  none :: COMPILER_REGISTERS_SET.map (fun r => some r.mnemonic)

/-- The power-of-two-rounded displacement byte sizes a parsed
displacement can produce. -/
def dispSizeOptions : List (Option Nat) :=
  [none, some 1, some 2, some 4]

/-- **C4.** In 16-bit mode, one probe of the ModR/M synthesis agrees
with the spec's addressing table on every register pair and
displacement size (in particular base `bx` with index `si` gives `rm=0`
with `mod` chosen by displacement size); when the given order does not
match, the table is consulted once more with base and index swapped;
and when nothing matches, the encoder fails with
`INVALID_ADDRESSING_MODE`. -/
theorem modrm_sixteen_bit_table_conformance :
    (∀ b ∈ reg16TableOptions, ∀ i ∈ reg16TableOptions, ∀ d ∈ dispSizeOptions,
        findMemRMPass 2 b i d = specMemAddressing16Table b i d) ∧
    (∀ (b i : Option String) (d : Option Nat),
        findMatchingMemAddressingRMByte 2 b i d =
          match findMemRMPass 2 b i d with
          | some r => some r
          | none => findMemRMPass 2 i b d) ∧
    (∀ (mode : Rat) (regArg : Option RegisterSchema) (desc : MemAddressDescription),
        findMatchingMemAddressingRMByte mode
            (desc.reg.map (fun r => r.mnemonic))
            (desc.scale.map (fun s => s.reg.mnemonic))
            (match desc.disp with
             | none => none
             | some _ => some (roundToPowerOfTwo (desc.signedByteSize.getD 0))) = none →
          encodeRMByte mode regArg (.memory desc) = .error .INVALID_ADDRESSING_MODE) := by
  refine ⟨by decide, fun b i d => rfl, ?_⟩
  intro mode regArg desc h
  simp only [encodeRMByte]
  rw [h]

/-- Witness for `modrm_sixteen_bit_table_conformance`: `bx`+`si` at
every displacement size, and the bare-`bp` description (no
displacement) failing with `INVALID_ADDRESSING_MODE`. -/
theorem modrm_sixteen_bit_table_conformance_witness :
    findMemRMPass 2 (some "bx") (some "si") (some 1) =
      specMemAddressing16Table (some "bx") (some "si") (some 1) ∧
    encodeRMByte 2 none (.memory { reg := some (regOf "bp") }) =
      .error .INVALID_ADDRESSING_MODE := by
  constructor
  · exact modrm_sixteen_bit_table_conformance.1 (some "bx") (by decide) (some "si")
      (by decide) (some 1) (by decide)
  · exact modrm_sixteen_bit_table_conformance.2.2 2 none { reg := some (regOf "bp") }
      (by decide)

/-- The `MemAddressDescription` that `[bp]` with a zero displacement
parses to: base `bp`, displacement `0` with the derived unsigned and
signed byte sizes. -/
def descBPZeroDisp : MemAddressDescription :=
  { reg := some (regOf "bp"), disp := some 0,
    dispByteSize := some (numberByteSize 0),
    signedByteSize := some (signedNumberByteSize 0) }

/-- `mov ax, [bp]` as `BinaryInstruction.compile` sees it: the
`8B /r`-style schema (`8b mr d0 d1` in §4.5's atoms), `ax` in the `reg`
field, the memory operand in `r/m`. -/
def movAxFromBP : InstrModel :=
  { binarySchema := [.lit 0x8B, .mr, .disp 0, .disp 1],
    schemaByteSize := 4,
    memArg := some { addressDescription := some descBPZeroDisp, schemaRm := true,
                     schemaMoffset := false, byteSize := 2 },
    rmArg := some (.memory descBPZeroDisp),
    regArg := some (regOf "ax") }

/-- **C6.** A 16-bit `[bp]` memory operand with zero displacement
encodes as `mod=01 rm=6` with a single zero displacement byte
(`mov ax, [bp]` = `8B 46 00`), while bare `bp` without displacement is
not encodable and a pure displacement takes `mod=00 rm=6`. -/
theorem membp_zero_disp_mod01_rm6_single_zero_byte :
    encodeRMByte 2 (some (regOf "ax")) (.memory descBPZeroDisp) =
      .ok ⟨0b01, 0, 0b110⟩ ∧
    BinaryInstruction_compile 2 movAxFromBP 0 = .ok [0x8B, 0x46, 0x00] ∧
    findMatchingMemAddressingRMByte 2 (some "bp") none none = none ∧
    findMatchingMemAddressingRMByte 2 none none (some 2) =
      some (INDIRECT_ADDRESSING, 0b110) := by
  decide

/-! ## Claim theorems: prefixes and the scaled-index check (C7, C8) -/

/-- Modelled from the spec: the default segment register of a 16-bit
addressing form (§4.6 speaks of the override "differing from the
default") — `ss` for `bp`-based forms, `ds` otherwise. -/
def specDefaultSreg (desc : MemAddressDescription) : String :=
  if desc.reg.map (fun r => r.mnemonic) = some "bp" ∨
      desc.scale.map (fun s => s.reg.mnemonic) = some "bp" then "ss" else "ds"

/-- `[ds:bx]` — a memory operand whose segment override equals the
form's default segment register. -/
def descDsBx : MemAddressDescription :=
  { sreg := some (regOf "ds"), reg := some (regOf "bx") }

/-- `mov ax, [ds:bx]` as `BinaryInstruction.compile` sees it. -/
def movAxFromDsBx : InstrModel :=
  { binarySchema := [.lit 0x8B, .mr, .disp 0, .disp 1],
    schemaByteSize := 4,
    memArg := some { addressDescription := some descDsBx, schemaRm := true,
                     schemaMoffset := false, byteSize := 2 },
    rmArg := some (.memory descDsBx),
    regArg := some (regOf "ax") }

/-- **C7 (counterexample).** The claim, as stated, requires the prefix
only when the operand's `sreg` differs from the default segment
register of the addressing form; but for `mov ax, [ds:bx]`, where the
override `ds` *is* the default of the `[bx]` form, the encoder still
prepends `0x3E`. -/
theorem sreg_prefix_emitted_even_when_equal_to_default :
    specDefaultSreg descDsBx = "ds" ∧
    descDsBx.sreg = some (regOf "ds") ∧
    (regOf "ds").mnemonic = "ds" ∧
    BinaryInstruction_compile 2 movAxFromDsBx 0 = .ok [0x3E, 0x8B, 0x07] := by
  decide

/-- **C7 (amended).** Whenever compilation succeeds on an instruction
whose memory operand carries a parsed address description, the output
is the instruction's own prefixes, then — exactly when the operand's
`sreg` is non-null, regardless of the default segment register —
exactly one segment-override prefix byte given by the §4.6 mapping,
then the template bytes. -/
theorem sreg_prefix_emission_shape :
    (∀ (inst : InstrModel) (mode : Rat) (addr : Int) (m : MemArgModel)
        (ad : MemAddressDescription) (bytes : List Nat),
        inst.memArg = some m →
        m.addressDescription = some ad →
        BinaryInstruction_compile mode inst addr = .ok bytes →
        ∃ body,
          (match ad.sreg with
           | none => bytes = inst.prefixes ++ body
           | some s => ∃ p, findMatchingSregOverride s = some p ∧
               bytes = inst.prefixes ++ p :: body)) ∧
    findMatchingSregOverride (regOf "cs") = some 0x2E ∧
    findMatchingSregOverride (regOf "ss") = some 0x36 ∧
    findMatchingSregOverride (regOf "ds") = some 0x3E ∧
    findMatchingSregOverride (regOf "es") = some 0x26 ∧
    findMatchingSregOverride (regOf "fs") = some 0x64 ∧
    findMatchingSregOverride (regOf "gs") = some 0x65 := by
  refine ⟨?_, by decide, by decide, by decide, by decide, by decide, by decide⟩
  intro inst mode addr m ad bytes hm had hok
  unfold BinaryInstruction_compile at hok
  rcases hstep : (match inst.rmArg with
      | none => Except.ok none
      | some rmArg =>
        match encodeRMByte mode inst.regArg rmArg with
        | .error e => .error e
        | .ok r => .ok (some r) : Except ParserErrorCode (Option RMByte)) with e | rmByte
  · rw [hstep] at hok
    simp at hok
  rw [hstep] at hok
  simp only [hm, had] at hok
  split at hok
  · simp at hok
  split at hok
  · simp at hok
  rename_i binaryPrefixes heq
  split at heq
  · simp at heq
  split at heq
  · -- sreg = none: the prefix list is the instruction's own prefixes
    rename_i hs
    simp only [Except.ok.injEq] at heq
    rcases hemit : emitSchemaAtoms inst addr
        (inst.schemaByteSize + inst.prefixes.length + if inst.hasScale = true then 1 else 0)
        inst.binarySchema rmByte [] with e | binary
    · rw [hemit] at hok
      simp at hok
    · rw [hemit] at hok
      simp only [Except.ok.injEq] at hok
      exact ⟨binary, by rw [← hok, ← heq]⟩
  · -- sreg = some s: exactly one override byte is appended
    rename_i s hs
    split at heq
    · simp at heq
    rename_i p hover
    simp only [Except.ok.injEq] at heq
    rcases hemit : emitSchemaAtoms inst addr
        (inst.schemaByteSize + inst.prefixes.length + if inst.hasScale = true then 1 else 0)
        inst.binarySchema rmByte [] with e | binary
    · rw [hemit] at hok
      simp at hok
    · rw [hemit] at hok
      simp only [Except.ok.injEq] at hok
      refine ⟨binary, p, hover, ?_⟩
      rw [← hok, ← heq]
      simp

/-- Witness for `sreg_prefix_emission_shape`: applying the shape part
to the concrete compilation of `mov ax, [ds:bx]`. -/
theorem sreg_prefix_emission_shape_witness :
    ∃ body,
      (match descDsBx.sreg with
       | none => [0x3E, 0x8B, 0x07] = movAxFromDsBx.prefixes ++ body
       | some s => ∃ p, findMatchingSregOverride s = some p ∧
           [0x3E, 0x8B, 0x07] = movAxFromDsBx.prefixes ++ p :: body) :=
  sreg_prefix_emission_shape.1 movAxFromDsBx 2 0
    { addressDescription := some descDsBx, schemaRm := true,
      schemaMoffset := false, byteSize := 2 }
    descDsBx [0x3E, 0x8B, 0x07] (by decide) (by decide) (by decide)

/-- `[es:si*4+bx]` — a 16-bit memory operand with a scaled index. -/
def descEsSi4Bx : MemAddressDescription :=
  { sreg := some (regOf "es"), reg := some (regOf "bx"),
    scale := some ⟨regOf "si", 4⟩ }

/-- `mov bx, [es:si*4+bx]` as `BinaryInstruction.compile` sees it
(`ast.getScale()` non-null). -/
def movBxFromScaledMem : InstrModel :=
  { binarySchema := [.lit 0x8B, .mr, .disp 0, .disp 1],
    schemaByteSize := 4,
    memArg := some { addressDescription := some descEsSi4Bx, schemaRm := true,
                     schemaMoffset := false, byteSize := 2 },
    rmArg := some (.memory descEsSi4Bx),
    regArg := some (regOf "bx"),
    hasScale := true }

/-- **C8.** Evaluating the code at the claim's input: in 16-bit mode a
scaled-index memory operand does *not* fail with
`SCALE_INDEX_IS_UNSUPPORTED_IN_MODE` — the guard reads
`sibByte && compiler.mode > InstructionArgSize.WORD`, so the operand
compiles with the scale silently dropped (`26 8B 18`, the `[es:bx+si]`
encoding); the guard fires only above 16-bit mode (here shown on an
instruction whose ModR/M step does not fail first). -/
theorem scale_index_check_fires_only_above_word_mode :
    BinaryInstruction_compile 2 movBxFromScaledMem 0 = .ok [0x26, 0x8B, 0x18] ∧
    BinaryInstruction_compile 2 { hasScale := true } 0 = .ok [] ∧
    BinaryInstruction_compile 4 { hasScale := true } 0 =
      .error .SCALE_INDEX_IS_UNSUPPORTED_IN_MODE := by
  decide

/-! ## Claim theorems: compiler mode (C9) -/

/-- `X86Compiler.setMode` of `compile.ts` (lines 79–84): reject the mode
with `UNSUPPORTED_COMPILER_MODE` when it lies outside
`[MIN_COMPILER_REG_LENGTH, MAX_COMPILER_REG_LENGTH]`.  The mode value is
the JavaScript quotient `n / 8` from the `bits` handler, hence a
rational. -/
def setModeCheck (mode : Rat) : Option ParserErrorCode :=
  if mode < (MIN_COMPILER_REG_LENGTH : Rat) ∨ (MAX_COMPILER_REG_LENGTH : Rat) < mode then
    some .UNSUPPORTED_COMPILER_MODE
  else none

/-- The `bits` branch of `X86Compiler.firstPass` (lines 158–159):
`this.setMode(arg.value.number / 8)`. -/
def bitsOptionCheck (n : Rat) : Option ParserErrorCode :=
  setModeCheck (n / 8)

/-- **C9 (counterexample).** `bits 24` is accepted without error,
although 24 is neither 16 nor 32 — refuting "for every other value of
`n`, compilation fails with `UNSUPPORTED_COMPILER_MODE`". -/
theorem bits_twenty_four_accepted :
    bitsOptionCheck 24 = none ∧ (24 : Rat) ≠ 16 ∧ (24 : Rat) ≠ 32 := by
  refine ⟨?_, by norm_num, by norm_num⟩
  have hmax : MAX_COMPILER_REG_LENGTH = 10 := by decide
  norm_num [bitsOptionCheck, setModeCheck, hmax, MIN_COMPILER_REG_LENGTH,
    InstructionArgSizeWORD]

/-- **C9 (amended).** `MAX_COMPILER_REG_LENGTH` folds to 10 (the x87
registers' byte size), so the `bits n` option is accepted exactly when
`16 ≤ n ≤ 80` (mode `n/8` between the minimal register length 2 and the
maximal register length 10); outside that range it fails with
`UNSUPPORTED_COMPILER_MODE`. -/
theorem bits_mode_accepted_iff_sixteen_to_eighty :
    MAX_COMPILER_REG_LENGTH = 10 ∧
    (∀ n : Rat, bitsOptionCheck n = none ↔ 16 ≤ n ∧ n ≤ 80) ∧
    (∀ n : Rat, ¬ (16 ≤ n ∧ n ≤ 80) →
        bitsOptionCheck n = some .UNSUPPORTED_COMPILER_MODE) := by
  have hmax : MAX_COMPILER_REG_LENGTH = 10 := by decide
  have h8 : (0 : Rat) < 8 := by norm_num
  have key : ∀ n : Rat, bitsOptionCheck n = none ↔ 16 ≤ n ∧ n ≤ 80 := by
    intro n
    unfold bitsOptionCheck setModeCheck
    rw [hmax]
    rw [show ((MIN_COMPILER_REG_LENGTH : Nat) : Rat) = 2 from by norm_num
      [MIN_COMPILER_REG_LENGTH, InstructionArgSizeWORD]]
    rw [show ((10 : Nat) : Rat) = 10 from by norm_num]
    split
    · rename_i h
      simp only [reduceCtorEq, false_iff]
      intro hc
      rcases h with h | h
      · have := (div_lt_iff₀ h8).mp h
        linarith [hc.1]
      · have := (lt_div_iff₀ h8).mp h
        linarith [hc.2]
    · rename_i h
      push_neg at h
      simp only [true_iff]
      constructor
      · have := (le_div_iff₀ h8).mp h.1
        linarith
      · have := (div_le_iff₀ h8).mp h.2
        linarith
  refine ⟨hmax, key, ?_⟩
  intro n hn
  rcases hcheck : bitsOptionCheck n with _ | e
  · exact absurd ((key n).mp hcheck) hn
  · have : e = .UNSUPPORTED_COMPILER_MODE := by
      revert hcheck
      unfold bitsOptionCheck setModeCheck
      split
      · intro h
        cases h
        rfl
      · intro h
        cases h
    rw [this]

/-- Witness for `bits_mode_accepted_iff_sixteen_to_eighty`: the
rejection part applied at `bits 8`. -/
theorem bits_mode_accepted_iff_sixteen_to_eighty_witness :
    bitsOptionCheck 8 = some .UNSUPPORTED_COMPILER_MODE :=
  bits_mode_accepted_iff_sixteen_to_eighty.2.2 8 (by norm_num)

/-! ## Two-pass layout engine

Translated from `X86Compiler` of
`packages/compiler-x86-assembler/src/parser/compiler/compile.ts` and
from `BinaryRepeatedNode` (appended to the same snapshot file). -/

/-- The count expression of a `times` node as handed to the RPN
evaluator; modelled from the spec (the RPN evaluator is an external
collaborator, §1): a folded constant or a label reference. -/
inductive TimesExpr where
  | num (n : Int)
  | label (name : String)
deriving DecidableEq, Repr

/-- Modelled from the spec: `rpnTokens` with a `keywordResolver` — a
constant evaluates to itself; a label reference resolves through the
resolver, and throws the math error `UNKNOWN_KEYWORD` when no resolver
is installed or the name is unknown. -/
def rpnTokens (keywordResolver : Option (String → Option Int)) :
    TimesExpr → Except ParserErrorCode Int
  | .num n => .ok n
  | .label name =>
    match keywordResolver with
    | none => .error .UNKNOWN_KEYWORD
    | some resolver =>
      match resolver name with
      | some v => .ok v
      | none => .error .UNKNOWN_KEYWORD

/-- The two `CompilerOptions` the layout engine interprets. -/
inductive CompilerOption where
  | ORG
  | BITS
deriving DecidableEq, Repr

/-- AST nodes as the first pass consumes them (`ASTNodeKind`): an
instruction (carrying the schema data resolved by the external
registry, see `InstrModel`), a data define (already encoded by
`BinaryDefinition.compile`), a label, a compiler option, or a `times`
node wrapping its count expression and repeated sub-node. -/
inductive ASTNodeM where
  | instruction (inst : InstrModel)
  | define (binary : List Nat)
  | label (name : String)
  | compilerOption (option : CompilerOption) (arg : Int)
  | times (timesExpression : TimesExpr) (repeatedNode : ASTNodeM)
deriving DecidableEq, Repr

/-- `node.kind === INSTRUCTION || node.kind === DEFINE` — the kinds
allowed under `noAbstractInstructions`. -/
def ASTNodeM.allowedInPostprocess : ASTNodeM → Bool
  | .instruction _ => true
  | .define _ => true
  | _ => false

/-- Binary blobs of the offset map (`BinaryBlob` subclasses):
`BinaryInstruction` (with its compiled bytes), `BinaryDefinition`, and
the unexpanded `BinaryRepeatedNode`. -/
inductive BinaryBlob where
  | instruction (ast : InstrModel) (binary : List Nat)
  | definition (binary : List Nat)
  | repeated (timesExpression : TimesExpr) (repeatedNode : ASTNodeM)
deriving DecidableEq, Repr

/-- `blob.binary` — `null` for a not-yet-expanded repeated blob. -/
def BinaryBlob.binaryBytes : BinaryBlob → Option (List Nat)
  | .instruction _ b => some b
  | .definition b => some b
  | .repeated _ _ => none

/-- `X86Compiler`'s own state: `_mode`, `_origin` and the pass
budget. -/
structure Compiler where
  mode : Rat := (InstructionArgSizeWORD : Rat)
  origin : Int := 0
  maxPasses : Nat := 4
deriving DecidableEq, Repr

/-- `FirstPassResult`: the label map and the ordered offset map, as
association lists in insertion order (JavaScript `Map`s iterate in
insertion order). -/
structure FirstPassResult where
  labels : List (String × Int) := []
  nodesOffsets : List (Int × BinaryBlob) := []
deriving DecidableEq, Repr

/-- `Map.set` on the offset map: overwrite in place when the key
exists, append otherwise. -/
def mapSet {β : Type} (m : List (Int × β)) (key : Int) (value : β) : List (Int × β) :=
  if m.any (fun e => e.1 = key) then
    m.map (fun e => if e.1 = key then (key, value) else e)
  else m ++ [(key, value)]

/-- `Map.delete` on the offset map. -/
def mapDelete {β : Type} (m : List (Int × β)) (key : Int) : List (Int × β) :=
  m.filter (fun e => e.1 ≠ key)

/-- The loop state of `X86Compiler.firstPass`: the compiler (whose
`_origin`/`_mode` the options mutate), the offset cursor, the
`originDefined` latch, and the result under construction. -/
structure FirstPassState where
  compiler : Compiler
  offset : Int
  originDefined : Bool
  result : FirstPassResult
deriving DecidableEq, Repr

/-- `emitBlob` of `firstPass` (lines 114–120): record the blob at
`origin + offset` and advance the cursor by `blob.binary?.length ?? 1`
— one byte when the blob has no binary yet (a times placeholder). -/
def emitBlob (st : FirstPassState) (blob : BinaryBlob) : FirstPassState :=
  { st with
    offset := st.offset + ((blob.binaryBytes.map List.length).getD 1 : Nat),
    result := { st.result with
      nodesOffsets :=
        mapSet st.result.nodesOffsets (st.compiler.origin + st.offset) blob } }

/-- `processNode` of `firstPass` (lines 129–218): the per-node switch.
The instruction case's `tryResolveSchema` consults the external schema
registry; the node model carries its result, so only the encoding step
remains.  A negative or failed `times` clone count is outside the
embedded claims. -/
def processNode (noAbstractInstructions : Bool) (st : FirstPassState) (node : ASTNodeM) :
    Except ParserErrorCode FirstPassState :=
  if noAbstractInstructions = true ∧ node.allowedInPostprocess = false then
    .error .UNPERMITTED_NODE_IN_POSTPROCESS_MODE
  else
    match node with
    | .compilerOption .ORG arg =>
      if st.originDefined = true then .error .ORIGIN_REDEFINED
      else
        .ok { st with
          compiler := { st.compiler with origin := arg },
          offset := 0,
          originDefined := true }
    | .compilerOption .BITS arg =>
      match setModeCheck ((arg : Rat) / 8) with
      | some e => .error e
      | none => .ok { st with compiler := { st.compiler with mode := (arg : Rat) / 8 } }
    | .times timesExpression repeatedNode =>
      .ok (emitBlob st (.repeated timesExpression repeatedNode))
    | .instruction astInstruction =>
      match BinaryInstruction_compile st.compiler.mode astInstruction
          (st.compiler.origin + st.offset) with
      | .error e => .error e
      | .ok binary => .ok (emitBlob st (.instruction astInstruction binary))
    | .define binary => .ok (emitBlob st (.definition binary))
    | .label labelName =>
      if st.result.labels.any (fun e => e.1 = labelName) then
        .error .LABEL_ALREADY_DEFINED
      else
        .ok { st with result := { st.result with
          labels := st.result.labels ++ [(labelName, st.compiler.origin + st.offset)] } }

/-- The `R.forEach(processNode, astNodes)` fold of `firstPass`. -/
def firstPassNodes (noAbstractInstructions : Bool) :
    List ASTNodeM → FirstPassState → Except ParserErrorCode FirstPassState
  | [], st => .ok st
  | node :: rest, st =>
    match processNode noAbstractInstructions st node with
    | .error e => .error e
    | .ok st2 => firstPassNodes noAbstractInstructions rest st2

/-- `X86Compiler.firstPass(tree, noAbstractInstructions,
initialOffset)`; the mutated compiler is returned alongside the
result. -/
def firstPass (compiler : Compiler) (tree : List ASTNodeM)
    (noAbstractInstructions : Bool) (initialOffset : Int) :
    Except ParserErrorCode (Compiler × FirstPassResult) :=
  match firstPassNodes noAbstractInstructions tree
      { compiler := compiler, offset := initialOffset, originDefined := false,
        result := {} } with
  | .error e => .error e
  | .ok st => .ok (st.compiler, st.result)

/-- Modelled from the spec: `FirstPassResult.getByteSize` (not in the
snapshot) — the total byte size of the emitted blobs, each contributing
what `emitBlob` advanced for it. -/
def FirstPassResult.getByteSize (r : FirstPassResult) : Nat :=
  r.nodesOffsets.foldl (fun acc e => acc + ((e.2.binaryBytes.map List.length).getD 1)) 0

/-- `BinaryRepeatedNode.pass(compiler, offset, labelResolver)` (appended
to `compile.ts`): evaluate the count expression through `rpnTokens` with
the given resolver as `keywordResolver`, then run the first pass over
that many clones of the repeated node at the blob's origin-relative
offset, with `noAbstractInstructions` set. -/
def BinaryRepeatedNode_pass (compiler : Compiler) (offset : Int)
    (labelResolver : Option (String → Option Int))
    (timesExpression : TimesExpr) (repeatedNode : ASTNodeM) :
    Except ParserErrorCode (Compiler × FirstPassResult) :=
  match rpnTokens labelResolver timesExpression with
  | .error e => .error e
  | .ok times =>
    firstPass compiler (List.replicate times.toNat repeatedNode) true offset

/-- `resizeBlockAtOffset` of `secondPass` (lines 270–288): move every
label strictly above `offset` by `enlarge` (in-place `Map.set` on the
unique label keys); snapshot the offset map, delete every entry
strictly above `offset`, then re-`set` each of those snapshot entries
at its moved address, in snapshot order. -/
def resizeBlockAtOffset (labels : List (String × Int))
    (nodesOffsets : List (Int × BinaryBlob)) (offset enlarge : Int) :
    List (String × Int) × List (Int × BinaryBlob) :=
  let labels2 := labels.map (fun e => if offset < e.2 then (e.1, e.2 + enlarge) else e)
  let afterDelete := nodesOffsets.filter (fun e => ¬ offset < e.1)
  let moved := (nodesOffsets.filter (fun e => offset < e.1)).foldl
    (fun acc e => mapSet acc (e.1 + enlarge) e.2) afterDelete
  (labels2, moved)

/-- `appendBlobsAtOffset` of `secondPass` (lines 296–300): `set` every
produced blob at `offset + blobOffset`. -/
def appendBlobsAtOffset (nodesOffsets : List (Int × BinaryBlob)) (offset : Int)
    (blobs : List (Int × BinaryBlob)) : List (Int × BinaryBlob) :=
  blobs.foldl (fun acc e => mapSet acc (offset + e.1) e.2) nodesOffsets

/-- The inner `for (let [offset, blob] of nodesOffsets)` loop of
`secondPass` (lines 307–367), as a worklist over the entries still to
be visited.  A repeated blob expands and breaks out (`needPass` set);
note the source calls `blob.pass(this, offset - this._origin)` without
the `labelResolver` argument.  An actionable instruction blob is
re-encoded; a non-zero `shrinkBytes` rewrites the blob, resizes the
maps and continues over the live map — whose still-unvisited entries
(all above the current offset when blobs sit at their addresses) carry
their moved keys, which the shifted worklist models. -/
def secondPassInnerAux (compiler : Compiler) :
    Nat → List (Int × BinaryBlob) → List (String × Int) → List (Int × BinaryBlob) →
    Bool → Bool →
    Except ParserErrorCode
      (Bool × Bool × List (String × Int) × List (Int × BinaryBlob) × Compiler)
  | _, [], labels, nodesOffsets, needPass, needSort =>
    .ok (needPass, needSort, labels, nodesOffsets, compiler)
  | 0, _ :: _, labels, nodesOffsets, needPass, needSort =>
    .ok (needPass, needSort, labels, nodesOffsets, compiler)
  | fuel + 1, (offset, blob) :: rest, labels, nodesOffsets, needPass, needSort =>
    match blob with
    | .repeated timesExpression repeatedNode =>
      match BinaryRepeatedNode_pass compiler (offset - compiler.origin) none
          timesExpression repeatedNode with
      | .error e => .error e
      | .ok (compiler2, blobResult) =>
        let blobSize := blobResult.getByteSize
        let nodesOffsets2 := mapDelete nodesOffsets offset
        let resized := resizeBlockAtOffset labels nodesOffsets2 offset
          (max 1 ((blobSize : Int) - 1))
        let nodesOffsets3 := appendBlobsAtOffset resized.2 0 blobResult.nodesOffsets
        .ok (true, true, resized.1, nodesOffsets3, compiler2)
    | .instruction ast binary =>
      if ¬ ast.labeledInstruction = true ∧ ¬ ast.unresolvedArgs = true then
        secondPassInnerAux compiler fuel rest labels nodesOffsets needPass needSort
      else
        match BinaryInstruction_compile compiler.mode ast offset with
        | .error e => .error e
        | .ok recompiledBinary =>
          let shrinkBytes : Int := (binary.length : Int) - (recompiledBinary.length : Int)
          if shrinkBytes ≠ 0 then
            let ast2 := { ast with unresolvedArgs := true }
            let nodesOffsets2 :=
              mapSet nodesOffsets offset (.instruction ast2 recompiledBinary)
            let resized := resizeBlockAtOffset labels nodesOffsets2 offset (-shrinkBytes)
            let rest2 := rest.map
              (fun e => if offset < e.1 then (e.1 - shrinkBytes, e.2) else e)
            secondPassInnerAux compiler fuel rest2 resized.1 resized.2 true needSort
          else
            secondPassInnerAux compiler fuel rest labels nodesOffsets needPass needSort
    | .definition _ =>
      secondPassInnerAux compiler fuel rest labels nodesOffsets needPass needSort

/-- The inner loop entered with exactly as much fuel as worklist
entries (each step consumes one entry, so the fuel never runs dry). -/
def secondPassInner (compiler : Compiler) (work : List (Int × BinaryBlob))
    (labels : List (String × Int)) (nodesOffsets : List (Int × BinaryBlob))
    (needPass needSort : Bool) :
    Except ParserErrorCode
      (Bool × Bool × List (String × Int) × List (Int × BinaryBlob) × Compiler) :=
  secondPassInnerAux compiler work.length work labels nodesOffsets needPass needSort

/-- The outer `for (let pass = 0; pass < this.maxPasses; ++pass)` loop
of `secondPass`: run the inner loop on the current map; a pass with no
`needPass` succeeds, exhausting the budget fails with
`UNABLE_TO_COMPILE_FILE`.  Returns the pass count, the sort flag, the
final maps and compiler. -/
def secondPassLoop (compiler : Compiler) :
    Nat → Nat → List (String × Int) → List (Int × BinaryBlob) → Bool →
    Except ParserErrorCode
      (Nat × Bool × List (String × Int) × List (Int × BinaryBlob) × Compiler)
  | 0, _, _, _, _ => .error .UNABLE_TO_COMPILE_FILE
  | fuel + 1, totalPasses, labels, nodesOffsets, needSort =>
    match secondPassInner compiler nodesOffsets labels nodesOffsets false needSort with
    | .error e => .error e
    | .ok (needPass, needSort2, labels2, nodesOffsets2, compiler2) =>
      if needPass then
        secondPassLoop compiler2 fuel (totalPasses + 1) labels2 nodesOffsets2 needSort2
      else .ok (totalPasses, needSort2, labels2, nodesOffsets2, compiler2)

/-- Stable insertion of an entry after every entry with a key at most
its own. -/
def insertByAddress {β : Type} : List (Int × β) → (Int × β) → List (Int × β)
  | [], e => [e]
  | x :: xs, e => if x.1 ≤ e.1 then x :: insertByAddress xs e else e :: x :: xs

/-- The final `Array.from(nodesOffsets).sort((a, b) => a[0] - b[0])` of
`secondPass` — a stable sort by address, as insertion sort. -/
def sortByAddress {β : Type} (l : List (Int × β)) : List (Int × β) :=
  l.foldl insertByAddress []

/-- `blob.compile(this, offset)` in the final emission loop: an
instruction blob re-encodes; a definition keeps its bytes; the base
`BinaryBlob.compile` of a leftover repeated blob (impossible after a
successful loop) carries no bytes. -/
def blobCompile (compiler : Compiler) (offset : Int) :
    BinaryBlob → Except ParserErrorCode (List Nat)
  | .instruction ast _ => BinaryInstruction_compile compiler.mode ast offset
  | .definition binary => .ok binary
  | .repeated _ _ => .ok []

/-- The final `for (const [offset, blob] of orderedOffsets)` emission
loop. -/
def compileBlobs (compiler : Compiler) :
    List (Int × BinaryBlob) → Except ParserErrorCode (List (Int × List Nat))
  | [] => .ok []
  | (offset, blob) :: rest =>
    match blobCompile compiler offset blob with
    | .error e => .error e
    | .ok binary =>
      match compileBlobs compiler rest with
      | .error e => .error e
      | .ok out => .ok ((offset, binary) :: out)

/-- `SecondPassResult`: final label map, every blob's definitive bytes
by address, and the pass count. -/
structure SecondPassResult where
  labelsOffsets : List (String × Int)
  blobs : List (Int × List Nat)
  totalPasses : Nat
deriving DecidableEq, Repr

/-- `X86Compiler.secondPass` (lines 232–399). -/
def secondPass (compiler : Compiler) (firstPassResult : FirstPassResult) :
    Except ParserErrorCode SecondPassResult :=
  match secondPassLoop compiler compiler.maxPasses 0 firstPassResult.labels
      firstPassResult.nodesOffsets false with
  | .error e => .error e
  | .ok (totalPasses, needSort, labels, nodesOffsets, compiler2) =>
    let orderedOffsets := if needSort then sortByAddress nodesOffsets else nodesOffsets
    match compileBlobs compiler2 orderedOffsets with
    | .error e => .error e
    | .ok blobs =>
      .ok { labelsOffsets := labels, blobs := blobs, totalPasses := totalPasses }

/-- `X86Compiler.compile`: second pass over the first pass. -/
def X86Compiler_compile (compiler : Compiler) (tree : List ASTNodeM) :
    Except ParserErrorCode SecondPassResult :=
  match firstPass compiler tree false 0 with
  | .error e => .error e
  | .ok (compiler2, firstPassResult) => secondPass compiler2 firstPassResult

/-- The output image (§6): every blob's bytes concatenated in map
order. -/
def SecondPassResult.imageBytes (r : SecondPassResult) : List Nat :=
  r.blobs.foldl (fun acc e => acc ++ e.2) []

/-- `nop` as its schema encodes it: the one-byte template `90`. -/
def nopInstr : InstrModel :=
  { binarySchema := [.lit 0x90], schemaByteSize := 1 }

/-- `times 3 nop` as an AST. -/
def times3nopTree : List ASTNodeM :=
  [.times (.num 3) (.instruction nopInstr)]

/-! ## Claim theorems: `times` expansion (C2, C10) -/

/-- **C2 (counterexample).** The claim says the repeat-count expression
is evaluated with the label resolver installed; but `secondPass` calls
`blob.pass(this, offset - this._origin)` without the resolver argument,
so `times lbl nop` fails with the RPN `UNKNOWN_KEYWORD` error even
though `lbl` is a defined label (here at address 2) that the resolver
would have resolved. -/
theorem times_count_label_unresolved_despite_resolvable :
    X86Compiler_compile {} [.define [0xAA, 0xBB], .label "lbl",
      .times (.label "lbl") (.instruction nopInstr)] = .error .UNKNOWN_KEYWORD ∧
    (firstPass {} [.define [0xAA, 0xBB], .label "lbl",
      .times (.label "lbl") (.instruction nopInstr)] false 0).map
        (fun r => r.2.labels) = .ok [("lbl", 2)] ∧
    rpnTokens (some (fun name => if name = "lbl" then some 2 else none))
      (.label "lbl") = .ok 2 := by
  refine ⟨by decide, by decide, ?_⟩
  simp [rpnTokens]

/-- **C2 (amended).** When the second pass reaches a Times blob at some
address, it evaluates the repeat-count expression *without* the label
resolver, runs the first-pass algorithm on the clones starting at the
blob's origin-relative address, deletes the times blob, resizes the
following entries by `max 1 (expanded size − 1)` and splices the
produced blobs into the offset map (marking the pass); so `times 3 nop`
produces the bytes `90 90 90`. -/
theorem times_blob_expansion_step_and_times3_nop :
    (X86Compiler_compile {} times3nopTree).map SecondPassResult.imageBytes =
      .ok [0x90, 0x90, 0x90] ∧
    (∀ (compiler : Compiler) (offset : Int) (texpr : TimesExpr) (inner : ASTNodeM)
        (rest : List (Int × BinaryBlob)) (labels : List (String × Int))
        (offsets : List (Int × BinaryBlob)) (needPass needSort : Bool),
        secondPassInner compiler ((offset, .repeated texpr inner) :: rest) labels offsets
            needPass needSort =
          match BinaryRepeatedNode_pass compiler (offset - compiler.origin) none
              texpr inner with
          | .error e => .error e
          | .ok (compiler2, blobResult) =>
            .ok (true, true,
              (resizeBlockAtOffset labels (mapDelete offsets offset) offset
                (max 1 ((blobResult.getByteSize : Int) - 1))).1,
              appendBlobsAtOffset
                (resizeBlockAtOffset labels (mapDelete offsets offset) offset
                  (max 1 ((blobResult.getByteSize : Int) - 1))).2
                0 blobResult.nodesOffsets,
              compiler2)) := by
  constructor
  · decide
  · intro compiler offset texpr inner rest labels offsets needPass needSort
    rfl

/-- **C10.** A `times` node's first-pass blob occupies exactly one byte
of address space — the cursor advances by 1, whatever the count or the
inner node — and the real size is accounted for only when the second
pass expands it, enlarging all later offsets by
`max 1 (expanded size − 1)`: for `times 3 nop` followed by `db 0xAA`,
the first pass places the data byte at address 1, and the second pass
leaves it at `1 + max 1 (3 − 1) = 3` behind the three `nop` bytes. -/
theorem times_placeholder_occupies_one_byte :
    (∀ (st : FirstPassState) (texpr : TimesExpr) (inner : ASTNodeM),
        processNode false st (.times texpr inner) =
          .ok { st with
            offset := st.offset + 1,
            result := { st.result with
              nodesOffsets :=
                mapSet st.result.nodesOffsets (st.compiler.origin + st.offset)
                  (.repeated texpr inner) } }) ∧
    (firstPass {} [.times (.num 3) (.instruction nopInstr), .define [0xAA]] false 0).map
        (fun r => r.2.nodesOffsets.map Prod.fst) = .ok [0, 1] ∧
    (X86Compiler_compile {} [.times (.num 3) (.instruction nopInstr), .define [0xAA]]).map
        (fun r => r.blobs) =
      .ok [(0, [0x90]), (1, [0x90]), (2, [0x90]), (3, [0xAA])] ∧
    (1 : Int) + max 1 ((3 : Int) - 1) = 3 := by
  refine ⟨?_, by decide, by decide, by norm_num⟩
  intro st texpr inner
  rfl

/-! ## Claim theorems: shrinking relocation (C3) -/

theorem mem_mapSet_self {β : Type} (m : List (Int × β)) (key : Int) (v : β) :
    (key, v) ∈ mapSet m key v := by
  unfold mapSet
  split
  · rename_i h
    rw [List.any_eq_true] at h
    obtain ⟨e, he, hk⟩ := h
    simp only [decide_eq_true_eq] at hk
    refine List.mem_map.mpr ⟨e, he, ?_⟩
    simp [hk]
  · exact List.mem_append_right _ (by simp)

theorem mem_mapSet_of_ne {β : Type} {m : List (Int × β)} {k : Int} {b : β}
    (key : Int) (v : β) (hmem : (k, b) ∈ m) (hne : k ≠ key) :
    (k, b) ∈ mapSet m key v := by
  unfold mapSet
  split
  · refine List.mem_map.mpr ⟨(k, b), hmem, ?_⟩
    simp [hne]
  · exact List.mem_append_left _ hmem

theorem mem_foldl_mapSet_of_ne {β : Type} (f : Int → Int) (todo : List (Int × β)) :
    ∀ (acc : List (Int × β)) (k : Int) (b : β),
      (k, b) ∈ acc → (∀ e ∈ todo, f e.1 ≠ k) →
      (k, b) ∈ todo.foldl (fun acc e => mapSet acc (f e.1) e.2) acc := by
  induction todo with
  | nil =>
    intro acc k b h _
    exact h
  | cons e rest ih =>
    intro acc k b h hne
    simp only [List.foldl_cons]
    refine ih _ k b (mem_mapSet_of_ne _ _ h ?_) ?_
    · exact fun hc => (hne e (by simp)) hc.symm
    · intro x hx
      exact hne x (by simp [hx])

theorem mem_foldl_mapSet_shift {β : Type} (c : Int) (todo : List (Int × β)) :
    ∀ (acc : List (Int × β)) (k : Int) (b : β),
      (k, b) ∈ todo → (todo.map Prod.fst).Nodup →
      (k + c, b) ∈ todo.foldl (fun acc e => mapSet acc (e.1 + c) e.2) acc := by
  induction todo with
  | nil =>
    intro acc k b h _
    simp at h
  | cons e rest ih =>
    intro acc k b hmem hnodup
    simp only [List.map_cons, List.nodup_cons] at hnodup
    simp only [List.foldl_cons]
    rcases List.mem_cons.mp hmem with heq | hrest
    · subst heq
      refine mem_foldl_mapSet_of_ne (fun x => x + c) rest _ _ _
        (mem_mapSet_self _ _ _) ?_
      intro x hx hc
      have hc2 : x.1 + c = k + c := hc
      have hx1 : x.1 = k := by omega
      exact hnodup.1 (List.mem_map.mpr ⟨x, hx, hx1⟩)
    · exact ih _ k b hrest hnodup.2

/-- **C3.** When a re-encoded instruction shrinks by `s > 0` bytes at
address `a` (the engine calls `resizeBlockAtOffset` with
`enlarge = −s`), every label and every blob at an address strictly
greater than `a` moves back by `s`, and every label and blob at an
address at most `a` is unchanged — given the layout invariants that
blob keys are distinct and that entries above `a` lie beyond `a + s`
(they start after the shrunk instruction's original end). -/
theorem shrink_moves_only_strictly_later_entries :
    ∀ (labels : List (String × Int)) (offsets : List (Int × BinaryBlob)) (a s : Int),
      0 < s →
      (∀ e ∈ offsets, a < e.1 → a + s < e.1) →
      (offsets.map Prod.fst).Nodup →
      (∀ l lo, (l, lo) ∈ labels →
        (lo ≤ a → (l, lo) ∈ (resizeBlockAtOffset labels offsets a (-s)).1) ∧
        (a < lo → (l, lo - s) ∈ (resizeBlockAtOffset labels offsets a (-s)).1)) ∧
      (∀ k b, (k, b) ∈ offsets →
        (k ≤ a → (k, b) ∈ (resizeBlockAtOffset labels offsets a (-s)).2) ∧
        (a < k → (k - s, b) ∈ (resizeBlockAtOffset labels offsets a (-s)).2)) := by
  intro labels offsets a s hs hsep hnodup
  constructor
  · intro l lo hmem
    constructor
    · intro hle
      refine List.mem_map.mpr ⟨(l, lo), hmem, ?_⟩
      have : ¬ a < lo := not_lt.mpr hle
      simp [this]
    · intro hlt
      refine List.mem_map.mpr ⟨(l, lo), hmem, ?_⟩
      simp only [hlt, if_pos]
      rw [← sub_eq_add_neg]
  · intro k b hmem
    constructor
    · intro hle
      refine mem_foldl_mapSet_of_ne (fun x => x + (-s))
        (offsets.filter (fun e => decide (a < e.1)))
        (offsets.filter (fun e => decide (¬ a < e.1))) k b ?_ ?_
      · refine List.mem_filter.mpr ⟨hmem, ?_⟩
        simp [not_lt.mpr hle]
      · intro e he
        have he1 := List.mem_filter.mp he
        have hgt : a < e.1 := by simpa using he1.2
        have := hsep e he1.1 hgt
        show e.1 + (-s) ≠ k
        omega
    · intro hlt
      have hmem2 : (k, b) ∈ offsets.filter (fun e => decide (a < e.1)) :=
        List.mem_filter.mpr ⟨hmem, by simp [hlt]⟩
      have hsub : ((offsets.filter (fun e => decide (a < e.1))).map Prod.fst).Sublist
          (offsets.map Prod.fst) :=
        (List.filter_sublist _).map Prod.fst
      have hnodup2 : ((offsets.filter (fun e => decide (a < e.1))).map Prod.fst).Nodup :=
        hnodup.sublist hsub
      have := mem_foldl_mapSet_shift (-s) (offsets.filter (fun e => decide (a < e.1)))
        (offsets.filter (fun e => decide (¬ a < e.1))) k b hmem2 hnodup2
      rw [← sub_eq_add_neg] at this
      exact this

/-- Witness for `shrink_moves_only_strictly_later_entries`: a concrete
map with one entry at each side of the shrink point. -/
theorem shrink_moves_only_strictly_later_entries_witness :
    (("x", (1 : Int)) ∈
      (resizeBlockAtOffset [("x", 1), ("y", 5)]
        [((1 : Int), BinaryBlob.definition [0]), (5, BinaryBlob.definition [1])]
        2 (-2)).1) ∧
    (("y", (5 : Int) - 2) ∈
      (resizeBlockAtOffset [("x", 1), ("y", 5)]
        [((1 : Int), BinaryBlob.definition [0]), (5, BinaryBlob.definition [1])]
        2 (-2)).1) ∧
    (((1 : Int), BinaryBlob.definition [0]) ∈
      (resizeBlockAtOffset [("x", 1), ("y", 5)]
        [((1 : Int), BinaryBlob.definition [0]), (5, BinaryBlob.definition [1])]
        2 (-2)).2) ∧
    (((5 : Int) - 2, BinaryBlob.definition [1]) ∈
      (resizeBlockAtOffset [("x", 1), ("y", 5)]
        [((1 : Int), BinaryBlob.definition [0]), (5, BinaryBlob.definition [1])]
        2 (-2)).2) := by
  have h := shrink_moves_only_strictly_later_entries [("x", 1), ("y", 5)]
    [((1 : Int), BinaryBlob.definition [0]), (5, BinaryBlob.definition [1])]
    2 2 (by norm_num) (by decide) (by decide)
  exact ⟨(h.1 "x" 1 (by decide)).1 (by norm_num),
    (h.1 "y" 5 (by decide)).2 (by norm_num),
    (h.2 1 (BinaryBlob.definition [0]) (by decide)).1 (by norm_num),
    (h.2 5 (BinaryBlob.definition [1]) (by decide)).2 (by norm_num)⟩

end I8086
